import Mathlib

/-!
Verification of the message-bus core of `object_database/message_bus.py`.

The development shallowly embeds the pure data-handling parts of the bus:

* `MessageBuffer` — the frame codec (`encode` / `write`) with its optional
  trailing size check, including Python's clamping slice semantics and the
  signed 32-bit `struct.pack("i", ...)` length fields;
* the incoming-message handler `_handleIncomingMessage` together with the
  read loop that closes a socket when the handler returns `False`;
* the outgoing-connection state machine (`connect` / `_handleMessageToSend` /
  `_connectTo`) as a small labelled transition system;
* the timer set `_pendingTimedCallbacks` (a `sortedcontainers.SortedSet`
  keyed on the timestamp) and `scheduleCallback`;
* `sendMessage` / `_isDefinitelyDead` and `_newConnectionId`.

Machine integers are modelled as `Nat`/`Int` with explicit two's-complement
arithmetic; byte strings are `List Nat` with entries below 256; fallible
operations return `Except`.
-/

/-! ## struct.pack / struct.unpack for the "i" (int32, little endian) format -/

/-- `struct.pack("i", n)`: 4-byte little-endian two's-complement encoding of a
signed 32-bit integer. -/
def packI32 (n : Int) : List Nat :=
  let u := (n % 4294967296).toNat
  [u % 256, u / 256 % 256, u / 65536 % 256, u / 16777216 % 256]

/-- `struct.unpack("i", bs)`: decodes exactly four little-endian bytes as a
signed 32-bit integer; any other byte-string width raises `struct.error`,
modelled as `none`. -/
def unpackI32 (bs : List Nat) : Option Int :=
  match bs with
  | [b0, b1, b2, b3] =>
      let u : Nat := b0 + 256 * b1 + 65536 * b2 + 16777216 * b3
      some (if u < 2147483648 then (u : Int) else (u : Int) - 4294967296)
  | _ => none

/-- The effective index of a Python slice bound `s` against a sequence of
length `len`: negative bounds count from the end and everything clamps to
`[0, len]`. -/
def pyIdx (len : Nat) (s : Int) : Nat :=
  if s < 0 then ((len : Int) + s).toNat else min len s.toNat

/-! ## MessageBuffer: the frame codec -/

/-- The mutable state of `MessageBuffer` (`message_bus.py`): a rolling byte
buffer, a message counter, the extra-size-check flag, and the current
message length if the 4-byte length field has already been consumed. -/
structure MessageBuffer where
  buffer : List Nat
  messagesEver : Nat
  extraMessageSizeCheck : Bool
  curMessageLen : Option Int
deriving Repr, DecidableEq

/-- `MessageBuffer.__init__`: empty buffer, zero messages, no current length. -/
def MessageBuffer.init (extraMessageSizeCheck : Bool) : MessageBuffer :=
  { buffer := [], messagesEver := 0,
    extraMessageSizeCheck := extraMessageSizeCheck, curMessageLen := none }

/-- `MessageBuffer.pendingBytecount`. -/
def MessageBuffer.pendingBytecount (st : MessageBuffer) : Nat :=
  st.buffer.length

/-- Exceptions that `MessageBuffer.write` can raise.  Python mutates the
buffer object in place before raising, so each error carries the state of
the buffer at the moment the exception propagates. -/
inductive WriteError where
  | CorruptMessageStream (st : MessageBuffer)
  | StructError (st : MessageBuffer)
deriving Repr, DecidableEq

/-- The `while True` loop of `MessageBuffer.write`.  One call corresponds to
one pass through the loop body: consume a 4-byte length field if none is
pending, then either return the accumulated messages (not enough bytes),
extract one payload (checking the trailing length in extra-size-check mode),
or raise. -/
def writeLoop (st : MessageBuffer) (msgs : List (List Nat)) :
    Except WriteError (List (List Nat) × MessageBuffer) :=
  match hc : st.curMessageLen with
  | none =>
    if h4 : 4 ≤ st.buffer.length then
      writeLoop
        { buffer := st.buffer.drop 4,
          messagesEver := st.messagesEver,
          extraMessageSizeCheck := st.extraMessageSizeCheck,
          curMessageLen := unpackI32 (st.buffer.take 4) } msgs
    else
      .ok (msgs, st)
  | some m =>
    if st.extraMessageSizeCheck then
      if (st.buffer.length : Int) ≥ m + 4 then
        let payload := st.buffer.take (pyIdx st.buffer.length m)
        let sizeCheckBytes :=
          (st.buffer.take (pyIdx st.buffer.length (m + 4))).drop
            (pyIdx st.buffer.length m)
        match unpackI32 sizeCheckBytes with
        | none =>
          .error (.StructError { st with messagesEver := st.messagesEver + 1 })
        | some sizeCheck =>
          let st' : MessageBuffer :=
            { buffer := st.buffer.drop (pyIdx st.buffer.length (m + 4)),
              messagesEver := st.messagesEver + 1,
              extraMessageSizeCheck := st.extraMessageSizeCheck,
              curMessageLen := none }
          if sizeCheck ≠ m then .error (.CorruptMessageStream st')
          else writeLoop st' (msgs ++ [payload])
      else
        .ok (msgs, st)
    else
      if (st.buffer.length : Int) ≥ m then
        let payload := st.buffer.take (pyIdx st.buffer.length m)
        let st' : MessageBuffer :=
          { buffer := st.buffer.drop (pyIdx st.buffer.length m),
            messagesEver := st.messagesEver + 1,
            extraMessageSizeCheck := st.extraMessageSizeCheck,
            curMessageLen := none }
        writeLoop st' (msgs ++ [payload])
      else
        .ok (msgs, st)
termination_by 2 * st.buffer.length + (match st.curMessageLen with | none => 0 | some _ => 1)
decreasing_by
  · simp only [List.length_drop]
    rcases h : unpackI32 (st.buffer.take 4) with _ | v <;> simp <;> omega
  · simp only [hc, List.length_drop]
    omega
  · simp only [hc, List.length_drop]
    omega

/-- `MessageBuffer.write`: extend the rolling buffer by the incoming bytes
and read off any completed messages. -/
def MessageBuffer.write (st : MessageBuffer) (bytesToWrite : List Nat) :
    Except WriteError (List (List Nat) × MessageBuffer) :=
  writeLoop { st with buffer := st.buffer ++ bytesToWrite } []

/-- `MessageBuffer.encode`: length field, payload, and (in extra-size-check
mode) a duplicate trailing length field. -/
def MessageBuffer.encode (bs : List Nat) (extraMessageSizeCheck : Bool) : List Nat :=
  packI32 bs.length ++ bs ++ (if extraMessageSizeCheck then packI32 bs.length else [])

/-- Feed a sequence of byte chunks through successive `write` calls,
concatenating the completed messages, as the socket read loop does when the
wire bytes arrive split across reads. -/
def writeAll (st : MessageBuffer) (chunks : List (List Nat)) :
    Except WriteError (List (List Nat) × MessageBuffer) :=
  match chunks with
  | [] => .ok ([], st)
  | c :: cs =>
    match st.write c with
    | .error e => .error e
    | .ok (ms, st') =>
      match writeAll st' cs with
      | .error e => .error e
      | .ok (ms', st'') => .ok (ms ++ ms', st'')

/-- Flip bit `i` (0 ≤ i < 32) of a 4-byte field: byte `i / 8`, bit `i % 8`.
Used to model a single-bit corruption of a length field on the wire. -/
def flipBit4 (bs : List Nat) (i : Nat) : List Nat :=
  bs.set (i / 8) (bs.getD (i / 8) 0 ^^^ 2 ^ (i % 8))

/-! ## Incoming-message handling (`_handleIncomingMessage` and the read loop) -/

/-- The user-visible events relevant to incoming-message handling
(`MessageBusEvent`), parameterized by the application's message type. -/
inductive BusEvent (Msg : Type) where
  | NewIncomingConnection (connId : Nat)
  | IncomingConnectionClosed (connId : Nat)
  | IncomingMessage (connId : Nat) (message : Msg)
  | OutgoingConnectionEstablished (connId : Nat)
  | OutgoingConnectionFailed (connId : Nat)
  | OutgoingConnectionClosed (connId : Nat)
deriving Repr, DecidableEq

/-- The connection registry of a `MessageBus`.  Each data socket corresponds
to exactly one connection id, so the socket-keyed and the id-keyed maps of
the Python code are represented together: a connection id is listed in
`incomingConns` iff it is present in `_connIdToIncomingSocket`,
`_socketToIncomingConnId`, `_connIdToIncomingEndpoint` and
`_incomingSocketBuffers` (and symmetrically for `outgoingConns`). -/
structure ConnRegistry where
  unauthenticatedConnections : List Nat
  incomingConns : List Nat
  outgoingConns : List Nat
deriving Repr, DecidableEq

/-- `_markSocketClosed`: remove the connection behind the socket from every
registry map it sits in and fire the matching Closed event. -/
def markSocketClosed {Msg : Type} (reg : ConnRegistry) (connId : Nat) :
    ConnRegistry × List (BusEvent Msg) :=
  if connId ∈ reg.incomingConns then
    ({ unauthenticatedConnections := reg.unauthenticatedConnections.erase connId,
       incomingConns := reg.incomingConns.erase connId,
       outgoingConns := reg.outgoingConns },
     [.IncomingConnectionClosed connId])
  else if connId ∈ reg.outgoingConns then
    ({ reg with outgoingConns := reg.outgoingConns.erase connId },
     [.OutgoingConnectionClosed connId])
  else
    (reg, [])

/-- `_getConnectionIdFromSocket`: the id of a socket known to either map. -/
def getConnectionIdFromSocket (reg : ConnRegistry) (sock : Nat) : Option Nat :=
  if sock ∈ reg.incomingConns then some sock
  else if sock ∈ reg.outgoingConns then some sock
  else none

/-- `_handleIncomingMessage`: returns whether the connection should stay
open, the updated registry, and the events fired.  `decodeUtf8` models
`bytes.decode("utf8")` (`none` = `UnicodeDecodeError`) and `deserializeMsg`
models the configured codec (`none` = deserialization error). -/
def handleIncomingMessage {Msg Tok : Type} [DecidableEq Tok]
    (decodeUtf8 : List Nat → Option Tok)
    (deserializeMsg : List Nat → Option Msg)
    (authToken : Option Tok)
    (reg : ConnRegistry) (serializedMessage : List Nat) (sock : Nat) :
    Bool × ConnRegistry × List (BusEvent Msg) :=
  match getConnectionIdFromSocket reg sock with
  | none => (false, reg, [])
  | some connId =>
    if connId ∈ reg.unauthenticatedConnections then
      match decodeUtf8 serializedMessage with
      | none => (false, reg, [])
      | some s =>
        if some s ≠ authToken then (false, reg, [])
        else
          (true,
           { reg with unauthenticatedConnections :=
               reg.unauthenticatedConnections.erase connId },
           [])
    else
      match deserializeMsg serializedMessage with
      | none => (false, reg, [])
      | some message => (true, reg, [.IncomingMessage connId message])

/-- The message loop of `_handleReadReadySocket`: handle the completed
messages in order; on the first `False` mark the socket closed and stop
(Python's `break`). -/
def processNewMessages {Msg Tok : Type} [DecidableEq Tok]
    (decodeUtf8 : List Nat → Option Tok)
    (deserializeMsg : List Nat → Option Msg)
    (authToken : Option Tok)
    (reg : ConnRegistry) (sock : Nat) :
    List (List Nat) → ConnRegistry × List (BusEvent Msg)
  | [] => (reg, [])
  | m :: ms =>
    match handleIncomingMessage decodeUtf8 deserializeMsg authToken reg m sock with
    | (true, reg', evts) =>
      let r := processNewMessages decodeUtf8 deserializeMsg authToken reg' sock ms
      (r.1, evts ++ r.2)
    | (false, reg', evts) =>
      let r := @markSocketClosed Msg reg' sock
      (r.1, evts ++ r.2)

/-! ## The outgoing-connection state machine (connect / auth sequencing) -/

/-- An item on `_messagesToSendQueue` destined for one connection: either
the `TriggerConnect` sentinel or serialized payload bytes. -/
inductive SendItem where
  | TriggerConnect
  | payload (msg : List Nat)
deriving Repr, DecidableEq

/-- The state relevant to one outgoing connection id.  `sendQueue` is the
projection of `_messagesToSendQueue` onto this id, `preconnectBuffer` is
`_messagesForUnconnectedOutgoingConnection[connId]`, `wire` is the sequence
of payloads appended (in order) to the socket's write buffer,
`pendingConnect` is membership in `_connIdPendingOutgoingConnection`,
`connected` is membership in `_connIdToOutgoingSocket`, and
`connectScheduled` records that a `_connectTo` callback is pending. -/
structure OutConnState where
  sendQueue : List SendItem
  preconnectBuffer : List (List Nat)
  wire : List (List Nat)
  pendingConnect : Bool
  connected : Bool
  connectScheduled : Bool
deriving Repr, DecidableEq

/-- `_scheduleBytesForWrite` for one connection: empty payloads are dropped,
connected sockets get the bytes appended to the write buffer, pending
connections buffer them, and dead connections drop them. -/
def scheduleBytesForWrite (s : OutConnState) (msg : List Nat) : OutConnState :=
  if msg = [] then s
  else if s.connected then { s with wire := s.wire ++ [msg] }
  else if s.pendingConnect then
    { s with preconnectBuffer := s.preconnectBuffer ++ [msg] }
  else s

/-- The state of an outgoing connection right after `connect` returns:
`TriggerConnect` is the first (and so far only) item on the send queue
(`_putOnSendQueue(connId, TriggerConnect)`), the connection is pending. -/
def initialOutConnState : OutConnState :=
  { sendQueue := [.TriggerConnect], preconnectBuffer := [], wire := [],
    pendingConnect := true, connected := false, connectScheduled := false }

/-- Success path of `_connectTo`: register the socket, flush the preconnect
buffer through `_scheduleBytesForWrite` in FIFO order, and leave the
pending-connect set. -/
def connectFlush (s : OutConnState) : OutConnState :=
  let s2 := s.preconnectBuffer.foldl scheduleBytesForWrite
    { s with connected := true, preconnectBuffer := [] }
  { s2 with pendingConnect := false, connectScheduled := false }

/-- The interleaved actions that can touch one outgoing connection's byte
flow, with `token` the UTF-8 encoding of the auth token:
user `sendMessage` calls enqueue payloads; the socket thread dequeues items
FIFO (`_handleMessageToSend`), pre-staging the token and scheduling
`_connectTo` when it dequeues `TriggerConnect`; the event thread finishes or
fails the pending connect. -/
inductive OutStep (token : List Nat) : OutConnState → OutConnState → Prop where
  | sendMessage (s : OutConnState) (msg : List Nat) :
      OutStep token s { s with sendQueue := s.sendQueue ++ [.payload msg] }
  | dequeueTrigger (s : OutConnState) (rest : List SendItem)
      (h : s.sendQueue = SendItem.TriggerConnect :: rest) :
      OutStep token s
        ({ scheduleBytesForWrite { s with sendQueue := rest } token with connectScheduled := true })
  | dequeuePayload (s : OutConnState) (msg : List Nat) (rest : List SendItem)
      (h : s.sendQueue = SendItem.payload msg :: rest) :
      OutStep token s (scheduleBytesForWrite { s with sendQueue := rest } msg)
  | connectFinish (s : OutConnState)
      (h : s.connectScheduled = true) (hc : s.connected = false) :
      OutStep token s (connectFlush s)
  | connectFail (s : OutConnState)
      (h : s.connectScheduled = true) (hc : s.connected = false) :
      OutStep token s
        ({ s with preconnectBuffer := [], pendingConnect := false, connectScheduled := false })

/-- States reachable from the moment `connect` returns. -/
inductive ReachableOut (token : List Nat) : OutConnState → Prop where
  | init : ReachableOut token initialOutConnState
  | step {s s' : OutConnState} :
      ReachableOut token s → OutStep token s s' → ReachableOut token s'

/-! ## Scheduled callbacks (`scheduleCallback`, `_pendingTimedCallbacks`) -/

/-- Modelled from `sortedcontainers.SortedKeyList.add` with
`key = fst`: insertion by `bisect_right`, i.e. after every element whose
key is less than or equal to the new key. -/
def sortedKeyInsert : List (Nat × Nat) → Nat × Nat → List (Nat × Nat)
  | [], v => [v]
  | x :: xs, v => if v.1 < x.1 then v :: x :: xs else x :: sortedKeyInsert xs v

/-- Modelled from `sortedcontainers.SortedSet.add` (the type of
`_pendingTimedCallbacks`): set semantics — adding a `(timestamp, callback)`
pair that is already a member is a no-op. -/
def sortedSetAdd (l : List (Nat × Nat)) (v : Nat × Nat) : List (Nat × Nat) :=
  if v ∈ l then l else sortedKeyInsert l v

/-- `_consumeCallbacksOnOutputThread`'s pop loop: pop pairs from the front
while their timestamp is due, collecting the callbacks in pop order (they
are put on `_eventQueue` one by one). -/
def consumeDue (now : Nat) : List (Nat × Nat) → List (Nat × Nat) × List Nat
  | [] => ([], [])
  | (ts, cb) :: rest =>
    if ts ≤ now then
      let r := consumeDue now rest
      (r.1, cb :: r.2)
    else ((ts, cb) :: rest, [])

/-- The state touched by `scheduleCallback`: the timed-callback set, the
event queue (whose `none` entry is the event-thread termination sentinel),
and the number of bytes written to the general wake pipe. -/
structure SchedState where
  pendingTimedCallbacks : List (Nat × Nat)
  eventQueue : List (Option Nat)
  generalWakes : Nat
deriving Repr, DecidableEq

/-- The `ValueError` raised when both `atTimestamp` and `delay` are given. -/
inductive SchedError where
  | valueError
deriving Repr, DecidableEq

/-- `MessageBus.scheduleCallback`: a `none` callback is discarded with a
warning; otherwise the `(timestamp, callback)` pair is added to
`_pendingTimedCallbacks` and the general wake pipe is written when the new
pair sits at the head. -/
def scheduleCallback (st : SchedState) (callback : Option Nat)
    (atTimestamp : Option Nat) (delay : Option Nat) (now : Nat) :
    Except SchedError SchedState :=
  match callback with
  | none => .ok st
  | some cb =>
    if atTimestamp.isSome && delay.isSome then .error .valueError
    else
      let ts := match atTimestamp with
        | some t => t
        | none => now + delay.getD 0
      let pending := sortedSetAdd st.pendingTimedCallbacks (ts, cb)
      let wakes := match pending.head? with
        | some h => if h.1 = ts then st.generalWakes + 1 else st.generalWakes
        | none => st.generalWakes
      .ok { st with pendingTimedCallbacks := pending, generalWakes := wakes }

/-- `_eventThreadLoop`: process queue items in order until the `none`
sentinel, which terminates the thread. -/
def eventThreadProcessed : List (Option Nat) → List Nat
  | [] => []
  | none :: _ => []
  | some x :: rest => x :: eventThreadProcessed rest

/-! ## sendMessage / _isDefinitelyDead / _newConnectionId -/

/-- The state touched by `sendMessage`: the started flag, the two
endpoint maps (as the sets of ids they contain), the send queue, and the
number of bytes written to the message wake pipe. -/
structure SendState where
  started : Bool
  connIdToIncomingEndpoint : List Nat
  connIdToOutgoingEndpoint : List Nat
  messagesToSendQueue : List (Nat × List Nat)
  messageToSendWakes : Nat
deriving Repr, DecidableEq

/-- `_isDefinitelyDead`: the id is in neither endpoint map. -/
def isDefinitelyDead (st : SendState) (connId : Nat) : Bool :=
  decide (connId ∉ st.connIdToOutgoingEndpoint ∧
          connId ∉ st.connIdToIncomingEndpoint)

/-- Errors `sendMessage` can raise: the bus is not active, or the
caller-supplied codec failed to serialize the message. -/
inductive SendError where
  | notActive
  | serializationError
deriving Repr, DecidableEq

/-- `MessageBus.sendMessage`: raise if not started; serialize; return
`false` for a definitively-dead id; else enqueue the serialized bytes
(`_putOnSendQueue`) and return `true`. -/
def sendMessage {Msg : Type} (st : SendState) (connId : Nat)
    (serializer : Msg → Option (List Nat)) (message : Msg) :
    Except SendError (Bool × SendState) :=
  if st.started = false then .error .notActive
  else
    match serializer message with
    | none => .error .serializationError
    | some serializedMessage =>
      if isDefinitelyDead st connId then .ok (false, st)
      else
        .ok (true,
          { st with
            messagesToSendQueue :=
              st.messagesToSendQueue ++ [(connId, serializedMessage)],
            messageToSendWakes := st.messageToSendWakes + 1 })

/-- `_newConnectionId`: bump `_connectionIdCounter` and return it. -/
def newConnectionId (connectionIdCounter : Nat) : Nat × Nat :=
  (connectionIdCounter + 1, connectionIdCounter + 1)

/-- The ids handed out by `k` successive `_newConnectionId` calls starting
from counter value `c`. -/
def allocatedIds (c : Nat) : Nat → List Nat
  | 0 => []
  | k + 1 => (newConnectionId c).1 :: allocatedIds (newConnectionId c).2 k

/-! ## Auxiliary definitions used by the proofs -/

/-- The decoder state after a fresh `MessageBuffer` has consumed exactly `k`
bytes of `encode p extra`: below 4 bytes the length field is still pending;
then the length is held while the payload accumulates; at the end the one
message has been extracted. -/
def midState (p : List Nat) (extra : Bool) (k : Nat) : MessageBuffer :=
  if k < 4 then
    { buffer := (MessageBuffer.encode p extra).take k, messagesEver := 0,
      extraMessageSizeCheck := extra, curMessageLen := none }
  else if k < (MessageBuffer.encode p extra).length then
    { buffer := ((MessageBuffer.encode p extra).take k).drop 4, messagesEver := 0,
      extraMessageSizeCheck := extra, curMessageLen := some (p.length : Int) }
  else
    { buffer := [], messagesEver := 1, extraMessageSizeCheck := extra,
      curMessageLen := none }

/-- Invariant of the outgoing-connection state machine for a non-empty
`token`: either `TriggerConnect` is still queued (and nothing has been
buffered), or it has been consumed and the token heads the preconnect
buffer, or the connection is up and the token heads the wire, or the
connect failed and nothing ever reaches the wire. -/
def OutInv (token : List Nat) (s : OutConnState) : Prop :=
  (s.sendQueue.head? = some SendItem.TriggerConnect ∧
     (∀ x ∈ s.sendQueue.tail, x ≠ SendItem.TriggerConnect) ∧
     s.preconnectBuffer = [] ∧ s.wire = [] ∧ s.pendingConnect = true ∧
     s.connected = false ∧ s.connectScheduled = false) ∨
  ((∀ x ∈ s.sendQueue, x ≠ SendItem.TriggerConnect) ∧
     s.preconnectBuffer.head? = some token ∧ s.wire = [] ∧
     s.pendingConnect = true ∧ s.connected = false ∧
     s.connectScheduled = true) ∨
  ((∀ x ∈ s.sendQueue, x ≠ SendItem.TriggerConnect) ∧
     s.connected = true ∧ s.wire.head? = some token) ∨
  ((∀ x ∈ s.sendQueue, x ≠ SendItem.TriggerConnect) ∧
     s.wire = [] ∧ s.pendingConnect = false ∧ s.connected = false ∧
     s.connectScheduled = false)

/-- The pending-timed-callback list is sorted by (nondecreasing) deadline. -/
def sortedByKey (l : List (Nat × Nat)) : Prop :=
  List.Chain' (fun a b => a.1 ≤ b.1) l

/-! # Basic facts about the int32 codec -/

theorem packI32_length (n : Int) : (packI32 n).length = 4 := rfl

theorem packI32_natCast (n : Nat) (h : n < 4294967296) :
    packI32 (n : Int) =
      [n % 256, n / 256 % 256, n / 65536 % 256, n / 16777216 % 256] := by
  unfold packI32
  have h1 : (n : Int) % 4294967296 = (n : Int) := by omega
  rw [h1]
  simp

theorem unpackI32_packI32 (n : Nat) (h : n < 2147483648) :
    unpackI32 (packI32 (n : Int)) = some (n : Int) := by
  rw [packI32_natCast n (by omega)]
  unfold unpackI32
  have hu : n % 256 + 256 * (n / 256 % 256) + 65536 * (n / 65536 % 256) +
      16777216 * (n / 16777216 % 256) = n := by omega
  simp only [hu, if_pos h]

theorem packI32_mem_lt (n : Int) : ∀ b ∈ packI32 n, b < 256 := by
  intro b hb
  unfold packI32 at hb
  simp only [List.mem_cons, List.mem_singleton, List.not_mem_nil, or_false] at hb
  rcases hb with h | h | h | h <;> subst h <;> omega

theorem unpackI32_inj (a b : List Nat) (ha4 : a.length = 4) (hb4 : b.length = 4)
    (ha : ∀ x ∈ a, x < 256) (hb : ∀ x ∈ b, x < 256)
    (h : unpackI32 a = unpackI32 b) : a = b := by
  rcases a with _ | ⟨a0, _ | ⟨a1, _ | ⟨a2, _ | ⟨a3, _ | ⟨a4, ta⟩⟩⟩⟩⟩ <;>
    simp only [List.length_cons, List.length_nil] at ha4 <;> try omega
  rcases b with _ | ⟨b0, _ | ⟨b1, _ | ⟨b2, _ | ⟨b3, _ | ⟨b4, tb⟩⟩⟩⟩⟩ <;>
    simp only [List.length_cons, List.length_nil] at hb4 <;> try omega
  have ha0 : a0 < 256 := ha a0 (by simp)
  have ha1 : a1 < 256 := ha a1 (by simp)
  have ha2 : a2 < 256 := ha a2 (by simp)
  have ha3 : a3 < 256 := ha a3 (by simp)
  have hb0 : b0 < 256 := hb b0 (by simp)
  have hb1 : b1 < 256 := hb b1 (by simp)
  have hb2 : b2 < 256 := hb b2 (by simp)
  have hb3 : b3 < 256 := hb b3 (by simp)
  unfold unpackI32 at h
  simp only [Option.some.injEq] at h
  split_ifs at h <;> simp_all <;> omega

/-! # One-step evaluation lemmas for the write loop -/

theorem writeLoop_return_noLen (st : MessageBuffer) (msgs : List (List Nat))
    (hc : st.curMessageLen = none) (hlen : st.buffer.length < 4) :
    writeLoop st msgs = .ok (msgs, st) := by
  rw [writeLoop.eq_def, hc]
  simp [Nat.not_le.mpr hlen]

theorem writeLoop_readLen (st : MessageBuffer) (msgs : List (List Nat))
    (hc : st.curMessageLen = none) (hlen : 4 ≤ st.buffer.length) :
    writeLoop st msgs =
      writeLoop
        { buffer := st.buffer.drop 4,
          messagesEver := st.messagesEver,
          extraMessageSizeCheck := st.extraMessageSizeCheck,
          curMessageLen := unpackI32 (st.buffer.take 4) } msgs := by
  rw [writeLoop.eq_def, hc]
  simp [hlen]

theorem writeLoop_stuck_extra (st : MessageBuffer) (msgs : List (List Nat)) (m : Int)
    (hc : st.curMessageLen = some m) (hx : st.extraMessageSizeCheck = true)
    (hlen : (st.buffer.length : Int) < m + 4) :
    writeLoop st msgs = .ok (msgs, st) := by
  rw [writeLoop.eq_def, hc]
  have h : ¬ ((st.buffer.length : Int) ≥ m + 4) := by omega
  simp [hx, h]

theorem writeLoop_stuck_plain (st : MessageBuffer) (msgs : List (List Nat)) (m : Int)
    (hc : st.curMessageLen = some m) (hx : st.extraMessageSizeCheck = false)
    (hlen : (st.buffer.length : Int) < m) :
    writeLoop st msgs = .ok (msgs, st) := by
  rw [writeLoop.eq_def, hc]
  have h : ¬ ((st.buffer.length : Int) ≥ m) := by omega
  simp [hx, h]

theorem pyIdx_natCast (L n : Nat) : pyIdx L (n : Int) = min L n := by
  rw [pyIdx, if_neg (by omega)]
  simp

theorem pyIdx_natCast_add (L n k : Nat) : pyIdx L ((n : Int) + (k : Nat)) = min L (n + k) := by
  rw [pyIdx, if_neg (by omega)]
  congr 1

/-- Master extraction lemma (extra-size-check mode): with the length field
`a.length` pending and buffer `a ++ b ++ tail` where `b` is the 4-byte
trailing-size field, the loop extracts `a`, checks `b`, and either raises
`CorruptMessageStream` or continues on `tail`. -/
theorem writeLoop_extract_extra (a b tail : List Nat) (e : Nat)
    (msgs : List (List Nat)) (v : Int)
    (hb : unpackI32 b = some v) (hb4 : b.length = 4) :
    writeLoop
      { buffer := (a ++ b) ++ tail, messagesEver := e,
        extraMessageSizeCheck := true, curMessageLen := some (a.length : Int) }
      msgs =
    (if v ≠ (a.length : Int) then
      .error (.CorruptMessageStream
        { buffer := tail, messagesEver := e + 1,
          extraMessageSizeCheck := true, curMessageLen := none })
    else
      writeLoop
        { buffer := tail, messagesEver := e + 1,
          extraMessageSizeCheck := true, curMessageLen := none }
        (msgs ++ [a])) := by
  rw [writeLoop.eq_def]
  have hL : ((a ++ b) ++ tail).length = a.length + 4 + tail.length := by
    simp [hb4]
    omega
  have hcond : ((((a ++ b) ++ tail).length : Nat) : Int) ≥ (a.length : Int) + 4 := by
    rw [hL]; push_cast; omega
  have h1 : pyIdx ((a ++ b) ++ tail).length ((a.length : Nat) : Int) = a.length := by
    rw [pyIdx_natCast, hL]; omega
  have h2 : pyIdx ((a ++ b) ++ tail).length ((a.length : Int) + 4) = a.length + 4 := by
    have : ((a.length : Int) + 4) = ((a.length : Int) + (4 : Nat)) := by push_cast; ring
    rw [this, pyIdx_natCast_add, hL]; omega
  have htake : ((a ++ b) ++ tail).take a.length = a := by
    rw [List.append_assoc]
    exact List.take_left a (b ++ tail)
  have htake2 : ((a ++ b) ++ tail).take (a.length + 4) = a ++ b := by
    exact List.take_left' (by simp [hb4])
  have hdrop2 : ((a ++ b) ++ tail).drop (a.length + 4) = tail := by
    exact List.drop_left' (by simp [hb4])
  have hdropb : (a ++ b).drop a.length = b := List.drop_left a b
  simp only [h1, h2, htake, htake2, hdrop2, hdropb, hcond, ge_iff_le, if_pos, hb]

/-- Master extraction lemma (no extra size check): with length field
`a.length` pending and buffer `a ++ tail`, the loop extracts `a` and
continues on `tail`. -/
theorem writeLoop_extract_plain (a tail : List Nat) (e : Nat)
    (msgs : List (List Nat)) :
    writeLoop
      { buffer := a ++ tail, messagesEver := e,
        extraMessageSizeCheck := false, curMessageLen := some (a.length : Int) }
      msgs =
    writeLoop
      { buffer := tail, messagesEver := e + 1,
        extraMessageSizeCheck := false, curMessageLen := none }
      (msgs ++ [a]) := by
  rw [writeLoop.eq_def]
  have hL : (a ++ tail).length = a.length + tail.length := by simp
  have hcond : (((a ++ tail).length : Nat) : Int) ≥ (a.length : Int) := by
    rw [hL]; push_cast; omega
  have h1 : pyIdx (a ++ tail).length ((a.length : Nat) : Int) = a.length := by
    rw [pyIdx_natCast, hL]; omega
  have htake : (a ++ tail).take a.length = a := List.take_left a tail
  have hdrop : (a ++ tail).drop a.length = tail := List.drop_left a tail
  simp only [h1, htake, hdrop, hcond, ge_iff_le, if_pos, Bool.false_eq_true, if_false]

/-! # Single-bit corruption of a 4-byte length field -/

theorem flipBit4_length (bs : List Nat) (i : Nat) :
    (flipBit4 bs i).length = bs.length := by
  simp [flipBit4]

theorem flipBit4_four_explicit (b0 b1 b2 b3 : Nat) (i : Nat) (hi : i < 32) :
    flipBit4 [b0, b1, b2, b3] i =
      (if i / 8 = 0 then [b0 ^^^ 2 ^ (i % 8), b1, b2, b3]
       else if i / 8 = 1 then [b0, b1 ^^^ 2 ^ (i % 8), b2, b3]
       else if i / 8 = 2 then [b0, b1, b2 ^^^ 2 ^ (i % 8), b3]
       else [b0, b1, b2, b3 ^^^ 2 ^ (i % 8)]) := by
  have hk : i / 8 = 0 ∨ i / 8 = 1 ∨ i / 8 = 2 ∨ i / 8 = 3 := by omega
  rcases hk with h | h | h | h <;> simp [flipBit4, h, List.set]

theorem xor_pow_ne (b j : Nat) : b ^^^ 2 ^ j ≠ b := by
  intro h
  have h2 : b ^^^ (b ^^^ 2 ^ j) = b ^^^ b := congrArg (b ^^^ ·) h
  rw [← Nat.xor_assoc, Nat.xor_self, Nat.zero_xor] at h2
  have := Nat.two_pow_pos j
  omega

theorem xor_pow_lt_256 (b j : Nat) (hb : b < 256) (hj : j < 8) :
    b ^^^ 2 ^ j < 256 := by
  have h1 : (2 : Nat) ^ j < 2 ^ 8 := Nat.pow_lt_pow_right (by norm_num) hj
  have h2 := @Nat.xor_lt_two_pow _ _ 8 (by simpa using hb) (by simpa using h1)
  simpa using h2

theorem flipBit4_four_props (b0 b1 b2 b3 : Nat) (i : Nat) (hi : i < 32)
    (h0 : b0 < 256) (h1 : b1 < 256) (h2 : b2 < 256) (h3 : b3 < 256) :
    (∀ x ∈ flipBit4 [b0, b1, b2, b3] i, x < 256) ∧
    flipBit4 [b0, b1, b2, b3] i ≠ [b0, b1, b2, b3] := by
  rw [flipBit4_four_explicit b0 b1 b2 b3 i hi]
  have hj : i % 8 < 8 := Nat.mod_lt _ (by norm_num)
  split_ifs <;>
    refine ⟨?_, ?_⟩ <;>
    first
      | (intro x hx
         simp only [List.mem_cons, List.mem_singleton, List.not_mem_nil,
           or_false] at hx
         rcases hx with h | h | h | h <;> subst h <;>
           first
             | exact xor_pow_lt_256 _ _ h0 hj
             | exact xor_pow_lt_256 _ _ h1 hj
             | exact xor_pow_lt_256 _ _ h2 hj
             | exact xor_pow_lt_256 _ _ h3 hj
             | assumption)
      | (intro hEq
         simp only [List.cons.injEq, and_true, true_and] at hEq
         first
           | exact xor_pow_ne b0 (i % 8) hEq
           | exact xor_pow_ne b1 (i % 8) hEq
           | exact xor_pow_ne b2 (i % 8) hEq
           | exact xor_pow_ne b3 (i % 8) hEq)

theorem packI32_explicit (m : Int) :
    packI32 m =
      [(m % 4294967296).toNat % 256, (m % 4294967296).toNat / 256 % 256,
       (m % 4294967296).toNat / 65536 % 256,
       (m % 4294967296).toNat / 16777216 % 256] := rfl

theorem flipBit4_packI32_props (m : Int) (i : Nat) (hi : i < 32) :
    (∀ x ∈ flipBit4 (packI32 m) i, x < 256) ∧
    flipBit4 (packI32 m) i ≠ packI32 m := by
  rw [packI32_explicit m]
  exact flipBit4_four_props _ _ _ _ i hi (by omega) (by omega) (by omega) (by omega)

theorem unpackI32_isSome_of_length (bs : List Nat) (h : bs.length = 4) :
    ∃ v, unpackI32 bs = some v := by
  rcases bs with _ | ⟨b0, _ | ⟨b1, _ | ⟨b2, _ | ⟨b3, _ | ⟨b4, t⟩⟩⟩⟩⟩ <;>
    simp only [List.length_cons, List.length_nil] at h <;> try omega
  exact ⟨_, rfl⟩

theorem unpackI32_flipBit4_ne (n : Nat) (i : Nat)
    (hn : n < 2147483648) (hi : i < 32) :
    ∃ v, unpackI32 (flipBit4 (packI32 (n : Int)) i) = some v ∧ v ≠ (n : Int) := by
  have hlen : (flipBit4 (packI32 (n : Int)) i).length = 4 := by
    rw [flipBit4_length, packI32_length]
  obtain ⟨v, hv⟩ := unpackI32_isSome_of_length _ hlen
  refine ⟨v, hv, ?_⟩
  intro hveq
  obtain ⟨hmem, hne⟩ := flipBit4_packI32_props (n : Int) i hi
  apply hne
  apply unpackI32_inj _ _ hlen (packI32_length _) hmem (packI32_mem_lt _)
  rw [hv, hveq, unpackI32_packI32 n hn]

/-- Extraction over a frame whose trailing length field was hit by a
single-bit flip: the loop removes the frame from the buffer, counts the
message, and raises `CorruptMessageStream`. -/
theorem writeLoop_corrupt_extract (p tail : List Nat) (e : Nat)
    (msgs : List (List Nat)) (i : Nat)
    (hn : p.length < 2147483648) (hi : i < 32) :
    writeLoop
      { buffer := (p ++ flipBit4 (packI32 (p.length : Int)) i) ++ tail,
        messagesEver := e, extraMessageSizeCheck := true,
        curMessageLen := some (p.length : Int) } msgs =
    .error (.CorruptMessageStream
      { buffer := tail, messagesEver := e + 1,
        extraMessageSizeCheck := true, curMessageLen := none }) := by
  obtain ⟨v, hv, hvne⟩ := unpackI32_flipBit4_ne p.length i hn hi
  rw [writeLoop_extract_extra p _ tail e msgs v hv
    (by rw [flipBit4_length, packI32_length])]
  rw [if_pos hvne]

/-- Traversing one well-formed extra-size-check frame advances the loop past
it, emitting the payload and counting the message. -/
theorem writeLoop_goodFrame_extra (p rest : List Nat) (e : Nat)
    (msgs : List (List Nat)) (hn : p.length < 2147483648) :
    writeLoop
      { buffer := MessageBuffer.encode p true ++ rest, messagesEver := e,
        extraMessageSizeCheck := true, curMessageLen := none } msgs =
    writeLoop
      { buffer := rest, messagesEver := e + 1,
        extraMessageSizeCheck := true, curMessageLen := none }
      (msgs ++ [p]) := by
  have hshape : MessageBuffer.encode p true ++ rest =
      packI32 (p.length : Int) ++ ((p ++ packI32 (p.length : Int)) ++ rest) := by
    simp [MessageBuffer.encode]
  rw [writeLoop_readLen _ _ rfl (by rw [hshape]; simp [packI32_length])]
  rw [hshape]
  rw [List.take_left' (packI32_length _), List.drop_left' (packI32_length _)]
  rw [unpackI32_packI32 _ hn]
  rw [writeLoop_extract_extra p _ rest e msgs _ (unpackI32_packI32 _ hn)
    (packI32_length _)]
  rw [if_neg (by simp)]

/-- C5 (amended): with the extra size check enabled, a single-bit flip
anywhere in the TRAILING 4-byte length field of an encoded frame makes
`MessageBuffer.write` raise `CorruptMessageStream`. -/
theorem write_flip_trailing_raises_corrupt (p : List Nat) (i : Nat)
    (hn : p.length < 2147483648) (hi : i < 32) :
    MessageBuffer.write (MessageBuffer.init true)
      (packI32 (p.length : Int) ++ p ++ flipBit4 (packI32 (p.length : Int)) i) =
    .error (.CorruptMessageStream
      { buffer := [], messagesEver := 1, extraMessageSizeCheck := true,
        curMessageLen := none }) := by
  unfold MessageBuffer.write MessageBuffer.init
  simp only [List.nil_append]
  have hshape : packI32 (p.length : Int) ++ p ++
      flipBit4 (packI32 (p.length : Int)) i =
      packI32 (p.length : Int) ++
        ((p ++ flipBit4 (packI32 (p.length : Int)) i) ++ []) := by
    simp [List.append_assoc]
  rw [hshape]
  rw [writeLoop_readLen _ _ rfl (by simp [packI32_length])]
  rw [List.take_left' (packI32_length _), List.drop_left' (packI32_length _)]
  rw [unpackI32_packI32 _ hn]
  exact writeLoop_corrupt_extract p [] 0 [] i hn hi

/-- Witness for C5's amended theorem at `p = [7]`, bit 3 of the trailing
length field. -/
theorem write_flip_trailing_raises_corrupt_witness :
    MessageBuffer.write (MessageBuffer.init true)
      (packI32 (([7] : List Nat).length : Int) ++ [7] ++
        flipBit4 (packI32 (([7] : List Nat).length : Int)) 3) =
    .error (.CorruptMessageStream
      { buffer := [], messagesEver := 1, extraMessageSizeCheck := true,
        curMessageLen := none }) :=
  write_flip_trailing_raises_corrupt [7] 3 (by decide) (by decide)

/-- C5 counterexample: flipping bit 0 of the LEADING length field of the
encoded empty payload does NOT raise `CorruptMessageStream`: `write`
returns normally with no message, and the decoder is left waiting for more
bytes (the flipped length 1 exceeds the available payload). -/
theorem write_flip_leading_returns_ok :
    MessageBuffer.write (MessageBuffer.init true)
      (flipBit4 (packI32 (([] : List Nat).length : Int)) 0 ++ ([] : List Nat) ++
        packI32 (([] : List Nat).length : Int)) =
    .ok ([], { buffer := [0, 0, 0, 0], messagesEver := 0,
               extraMessageSizeCheck := true, curMessageLen := some 1 }) := by
  have hbytes : flipBit4 (packI32 (([] : List Nat).length : Int)) 0 ++
      ([] : List Nat) ++ packI32 (([] : List Nat).length : Int) =
      [1, 0, 0, 0, 0, 0, 0, 0] := by decide
  rw [hbytes]
  unfold MessageBuffer.write MessageBuffer.init
  simp only [List.nil_append]
  rw [writeLoop_readLen _ _ rfl (by simp)]
  show writeLoop
    { buffer := [0, 0, 0, 0], messagesEver := 0,
      extraMessageSizeCheck := true, curMessageLen := some 1 } [] = _
  exact writeLoop_stuck_extra _ _ 1 rfl rfl (by norm_num)

/-- C10: a `write` call that trips the size check is not atomic: after a
good frame for `p1` and a frame for `p2` whose trailing length field was
corrupted, the call raises `CorruptMessageStream` — so `p1`, though
completed within this very call, is never returned — while the state
carried by the exception shows the corrupt frame already removed from the
buffer and `messagesEver` already incremented for both frames. -/
theorem write_corrupt_frame_not_atomic (p1 p2 : List Nat) (i : Nat)
    (h1 : p1.length < 2147483648) (h2 : p2.length < 2147483648) (hi : i < 32) :
    MessageBuffer.write (MessageBuffer.init true)
      (MessageBuffer.encode p1 true ++
        (packI32 (p2.length : Int) ++ p2 ++
          flipBit4 (packI32 (p2.length : Int)) i)) =
    .error (.CorruptMessageStream
      { buffer := [], messagesEver := 2, extraMessageSizeCheck := true,
        curMessageLen := none }) := by
  unfold MessageBuffer.write MessageBuffer.init
  simp only [List.nil_append]
  rw [writeLoop_goodFrame_extra p1 _ 0 [] h1]
  have hshape : packI32 (p2.length : Int) ++ p2 ++
      flipBit4 (packI32 (p2.length : Int)) i =
      packI32 (p2.length : Int) ++
        ((p2 ++ flipBit4 (packI32 (p2.length : Int)) i) ++ []) := by
    simp [List.append_assoc]
  rw [hshape]
  rw [writeLoop_readLen _ _ rfl (by simp [packI32_length])]
  rw [List.take_left' (packI32_length _), List.drop_left' (packI32_length _)]
  rw [unpackI32_packI32 _ h2]
  exact writeLoop_corrupt_extract p2 [] 1 ([] ++ [p1]) i h2 hi

/-- Witness for C10's theorem at `p1 = [1]`, `p2 = [2]`, bit 0. -/
theorem write_corrupt_frame_not_atomic_witness :
    MessageBuffer.write (MessageBuffer.init true)
      (MessageBuffer.encode [1] true ++
        (packI32 (([2] : List Nat).length : Int) ++ [2] ++
          flipBit4 (packI32 (([2] : List Nat).length : Int)) 0)) =
    .error (.CorruptMessageStream
      { buffer := [], messagesEver := 2, extraMessageSizeCheck := true,
        curMessageLen := none }) :=
  write_corrupt_frame_not_atomic [1] [2] 0 (by decide) (by decide) (by decide)

/-! # Round trip of the frame codec under arbitrary chunking -/

theorem encode_length (p : List Nat) (extra : Bool) :
    (MessageBuffer.encode p extra).length =
      4 + p.length + (if extra then 4 else 0) := by
  cases extra <;> simp [MessageBuffer.encode, packI32_length] <;> omega

theorem write_def (st : MessageBuffer) (bytes : List Nat) :
    MessageBuffer.write st bytes =
      writeLoop
        { buffer := st.buffer ++ bytes, messagesEver := st.messagesEver,
          extraMessageSizeCheck := st.extraMessageSizeCheck,
          curMessageLen := st.curMessageLen } [] := rfl

theorem midState_lt4 (p : List Nat) (extra : Bool) (k : Nat) (h : k < 4) :
    midState p extra k =
      { buffer := (MessageBuffer.encode p extra).take k, messagesEver := 0,
        extraMessageSizeCheck := extra, curMessageLen := none } := by
  rw [midState, if_pos h]

theorem midState_mid (p : List Nat) (extra : Bool) (k : Nat) (h4 : 4 ≤ k)
    (hlt : k < (MessageBuffer.encode p extra).length) :
    midState p extra k =
      { buffer := ((MessageBuffer.encode p extra).take k).drop 4,
        messagesEver := 0, extraMessageSizeCheck := extra,
        curMessageLen := some (p.length : Int) } := by
  rw [midState, if_neg (by omega), if_pos hlt]

theorem midState_done (p : List Nat) (extra : Bool) :
    midState p extra (MessageBuffer.encode p extra).length =
      { buffer := [], messagesEver := 1, extraMessageSizeCheck := extra,
        curMessageLen := none } := by
  have hT := encode_length p extra
  rw [midState, if_neg (by omega), if_neg (by omega)]

theorem writeLoop_extract_extra_nil (a b : List Nat) (e : Nat)
    (msgs : List (List Nat)) (v : Int)
    (hb : unpackI32 b = some v) (hb4 : b.length = 4) :
    writeLoop
      { buffer := a ++ b, messagesEver := e, extraMessageSizeCheck := true,
        curMessageLen := some (a.length : Int) } msgs =
    (if v ≠ (a.length : Int) then
      .error (.CorruptMessageStream
        { buffer := [], messagesEver := e + 1,
          extraMessageSizeCheck := true, curMessageLen := none })
    else
      writeLoop
        { buffer := [], messagesEver := e + 1,
          extraMessageSizeCheck := true, curMessageLen := none }
        (msgs ++ [a])) := by
  have h := writeLoop_extract_extra a b [] e msgs v hb hb4
  simpa using h

theorem writeLoop_extract_plain_nil (a : List Nat) (e : Nat)
    (msgs : List (List Nat)) :
    writeLoop
      { buffer := a, messagesEver := e, extraMessageSizeCheck := false,
        curMessageLen := some (a.length : Int) } msgs =
    writeLoop
      { buffer := [], messagesEver := e + 1,
        extraMessageSizeCheck := false, curMessageLen := none }
      (msgs ++ [a]) := by
  have h := writeLoop_extract_plain a [] e msgs
  simpa using h

/-- Once the length field of the single frame has been consumed, feeding up
to the `j`-th byte of the frame either leaves the decoder waiting
(`j` short of the frame end) or completes the payload exactly at the end. -/
theorem writeLoop_after_4 (p : List Nat) (extra : Bool) (j : Nat)
    (msgs : List (List Nat)) (hn : p.length < 2147483648)
    (h4 : 4 ≤ j) (hj : j ≤ (MessageBuffer.encode p extra).length) :
    writeLoop
      { buffer := ((MessageBuffer.encode p extra).take j).drop 4,
        messagesEver := 0, extraMessageSizeCheck := extra,
        curMessageLen := some (p.length : Int) } msgs =
    .ok (msgs ++
          (if j = (MessageBuffer.encode p extra).length then [p] else []),
         midState p extra j) := by
  have hT := encode_length p extra
  by_cases hjT : j = (MessageBuffer.encode p extra).length
  · subst hjT
    rw [List.take_length, if_pos rfl, midState_done]
    cases extra with
    | true =>
      have hassoc : MessageBuffer.encode p true =
          packI32 (p.length : Int) ++ (p ++ packI32 (p.length : Int)) := by
        simp [MessageBuffer.encode]
      rw [hassoc, List.drop_left' (packI32_length _)]
      rw [writeLoop_extract_extra_nil p _ 0 msgs _
        (unpackI32_packI32 _ hn) (packI32_length _)]
      rw [if_neg (by simp)]
      rw [writeLoop_return_noLen _ _ rfl (by simp)]
    | false =>
      simp only [MessageBuffer.encode, if_neg Bool.false_ne_true, List.append_nil]
      rw [List.drop_left' (packI32_length _)]
      rw [writeLoop_extract_plain_nil p 0 msgs]
      rw [writeLoop_return_noLen _ _ rfl (by simp)]
  · have hjlt : j < (MessageBuffer.encode p extra).length :=
      lt_of_le_of_ne hj hjT
    rw [if_neg hjT, List.append_nil]
    rw [midState_mid p extra j h4 hjlt]
    cases extra with
    | true =>
      apply writeLoop_stuck_extra _ _ (p.length : Int) rfl rfl
      simp only [List.length_drop, List.length_take]
      have h8 : j < 4 + p.length + 4 := by
        have := hT; simp only [if_pos] at this; omega
      omega
    | false =>
      apply writeLoop_stuck_plain _ _ (p.length : Int) rfl rfl
      simp only [List.length_drop, List.length_take]
      have h8 : j < 4 + p.length := by
        have := hT; simp only [if_neg Bool.false_ne_true] at this; omega
      omega

/-- One `write` call advances the decoder from the state after `k` bytes of
the encoded frame to the state after `j` bytes, emitting the payload
exactly when the frame is completed by this call. -/
theorem write_midState (p : List Nat) (extra : Bool)
    (hn : p.length < 2147483648) (k j : Nat) (hkj : k ≤ j)
    (hj : j ≤ (MessageBuffer.encode p extra).length) :
    MessageBuffer.write (midState p extra k)
      (((MessageBuffer.encode p extra).drop k).take (j - k)) =
    .ok ((if j = (MessageBuffer.encode p extra).length ∧
            k < (MessageBuffer.encode p extra).length then [p] else []),
         midState p extra j) := by
  have hT := encode_length p extra
  have hT4 : 4 ≤ (MessageBuffer.encode p extra).length := by omega
  have htakej : (MessageBuffer.encode p extra).take k ++
      ((MessageBuffer.encode p extra).drop k).take (j - k) =
      (MessageBuffer.encode p extra).take j := by
    rw [← List.take_add]
    congr 1
    omega
  by_cases hk4 : k < 4
  · rw [write_def, midState_lt4 p extra k hk4]
    simp only
    rw [htakej]
    by_cases hj4 : j < 4
    · have hjT : j ≠ (MessageBuffer.encode p extra).length := by omega
      rw [writeLoop_return_noLen _ _ rfl
        (by simp only [List.length_take]; omega)]
      rw [if_neg (by intro h; exact hjT h.1), midState_lt4 p extra j hj4]
    · have h4j : 4 ≤ j := by omega
      rw [writeLoop_readLen _ _ rfl
        (by simp only [List.length_take]; omega)]
      simp only
      have htake4 : ((MessageBuffer.encode p extra).take j).take 4 =
          packI32 (p.length : Int) := by
        rw [List.take_take, min_eq_left h4j]
        have hassoc : MessageBuffer.encode p extra =
            packI32 (p.length : Int) ++
              (p ++ (if extra then packI32 (p.length : Int) else [])) := by
          simp [MessageBuffer.encode]
        rw [hassoc, List.take_left' (packI32_length _)]
      rw [htake4, unpackI32_packI32 _ hn]
      rw [writeLoop_after_4 p extra j [] hn h4j hj]
      rw [List.nil_append]
      congr 1
      by_cases hjT : j = (MessageBuffer.encode p extra).length
      · rw [if_pos hjT, if_pos ⟨hjT, by omega⟩]
      · rw [if_neg hjT, if_neg (by intro h; exact hjT h.1)]
  · by_cases hkT : k < (MessageBuffer.encode p extra).length
    · have h4k : 4 ≤ k := by omega
      rw [write_def, midState_mid p extra k h4k hkT]
      simp only
      have hbuf : ((MessageBuffer.encode p extra).take k).drop 4 ++
          ((MessageBuffer.encode p extra).drop k).take (j - k) =
          ((MessageBuffer.encode p extra).take j).drop 4 := by
        rw [← htakej, List.drop_append_eq_append_drop]
        have hz : 4 - ((MessageBuffer.encode p extra).take k).length = 0 := by
          simp only [List.length_take]
          omega
        rw [hz, List.drop_zero]
      rw [hbuf]
      rw [writeLoop_after_4 p extra j [] hn (by omega) hj]
      rw [List.nil_append]
      congr 1
      by_cases hjT : j = (MessageBuffer.encode p extra).length
      · rw [if_pos hjT, if_pos ⟨hjT, hkT⟩]
      · rw [if_neg hjT, if_neg (by intro h; exact hjT h.1)]
    · have hkT' : k = (MessageBuffer.encode p extra).length := by omega
      subst hkT'
      have hjT : j = (MessageBuffer.encode p extra).length := by omega
      subst hjT
      rw [write_def, midState_done]
      simp only [Nat.sub_self, List.take_zero, List.append_nil]
      rw [writeLoop_return_noLen _ _ rfl (by simp)]
      rw [if_neg (by intro h; exact absurd h.2 (lt_irrefl _))]

/-- Feeding the remaining bytes of the encoded frame, however they are
chunked, completes the round trip. -/
theorem writeAll_midState (p : List Nat) (extra : Bool)
    (hn : p.length < 2147483648) :
    ∀ (chunks : List (List Nat)) (k : Nat),
      k ≤ (MessageBuffer.encode p extra).length →
      chunks.flatten = (MessageBuffer.encode p extra).drop k →
      writeAll (midState p extra k) chunks =
        .ok ((if k < (MessageBuffer.encode p extra).length then [p] else []),
             midState p extra (MessageBuffer.encode p extra).length) := by
  intro chunks
  induction chunks with
  | nil =>
    intro k hk hjoin
    have hlen := congrArg List.length hjoin
    simp only [List.flatten_nil, List.length_nil, List.length_drop] at hlen
    have hkT : k = (MessageBuffer.encode p extra).length := by omega
    subst hkT
    rw [writeAll]
    rw [if_neg (lt_irrefl _)]
  | cons c cs ih =>
    intro k hk hjoin
    simp only [List.flatten_cons] at hjoin
    have hc : (((MessageBuffer.encode p extra).drop k).take c.length) = c := by
      rw [← hjoin, List.take_left]
    have hcs : cs.flatten = (MessageBuffer.encode p extra).drop (k + c.length) := by
      have h1 : ((MessageBuffer.encode p extra).drop k).drop c.length = cs.flatten := by
        rw [← hjoin, List.drop_left]
      rw [← h1, List.drop_drop]
    have hlen := congrArg List.length hjoin
    simp only [List.length_append, List.length_drop] at hlen
    have hk' : k + c.length ≤ (MessageBuffer.encode p extra).length := by omega
    have hstep := write_midState p extra hn k (k + c.length) (by omega) hk'
    have hsub : k + c.length - k = c.length := by omega
    rw [hsub, hc] at hstep
    rw [writeAll, hstep]
    simp only
    rw [ih (k + c.length) hk' hcs]
    by_cases hkc : k + c.length = (MessageBuffer.encode p extra).length
    · by_cases hkT : k < (MessageBuffer.encode p extra).length
      · have hB : ¬ (k + c.length < (MessageBuffer.encode p extra).length) := by
          omega
        rw [if_pos (And.intro hkc hkT), if_neg hB, if_pos hkT]
        simp
      · have hA : ¬ (k + c.length = (MessageBuffer.encode p extra).length ∧
            k < (MessageBuffer.encode p extra).length) := by
          intro h
          exact hkT h.2
        have hB : ¬ (k + c.length < (MessageBuffer.encode p extra).length) := by
          omega
        rw [if_neg hA, if_neg hB, if_neg hkT]
        simp
    · have hlt : k + c.length < (MessageBuffer.encode p extra).length := by
        omega
      have hA : ¬ (k + c.length = (MessageBuffer.encode p extra).length ∧
          k < (MessageBuffer.encode p extra).length) := by
        intro h
        exact hkc h.1
      rw [if_neg hA, if_pos hlt, if_pos (by omega : k < (MessageBuffer.encode p extra).length)]
      simp

/-- C2: round trip of the frame codec.  For any payload below 2^31 bytes
(the empty payload included) and either setting of the extra-size-check
flag, feeding the bytes of `encode` into a fresh `MessageBuffer` — however
they are split across successive `write` calls — yields exactly `[p]`,
raises nothing, and leaves an empty buffer with no pending length. -/
theorem encode_write_roundTrip (p : List Nat) (extra : Bool)
    (chunks : List (List Nat)) (hn : p.length < 2147483648)
    (hchunks : chunks.flatten = MessageBuffer.encode p extra) :
    writeAll (MessageBuffer.init extra) chunks =
      .ok ([p], { buffer := [], messagesEver := 1,
                  extraMessageSizeCheck := extra, curMessageLen := none }) := by
  have h0 : MessageBuffer.init extra = midState p extra 0 := by
    rw [midState_lt4 p extra 0 (by norm_num)]
    rfl
  rw [h0]
  have h := writeAll_midState p extra hn chunks 0 (Nat.zero_le _)
    (by rw [List.drop_zero]; exact hchunks)
  rw [h]
  have hT := encode_length p extra
  rw [if_pos (by omega), midState_done]

/-- Witness for C2 at `p = [7]`, extra size check on, the 9 frame bytes
split as 2 + 4 + 3. -/
theorem encode_write_roundTrip_witness :
    writeAll (MessageBuffer.init true) [[1, 0], [0, 0, 7, 1], [0, 0, 0]] =
      .ok ([[7]], { buffer := [], messagesEver := 1,
                    extraMessageSizeCheck := true, curMessageLen := none }) :=
  encode_write_roundTrip [7] true [[1, 0], [0, 0, 7, 1], [0, 0, 0]]
    (by decide) (by decide)

/-! # Incoming messages: deserialization failure and the auth handshake -/

/-- C1 counterexample: on an established (authenticated) incoming
connection `7`, a payload whose deserialization fails makes the read loop
close the connection: it is removed from every registry map, an
`IncomingConnectionClosed` event is emitted, and the following frame `[1]`
of the same batch is never delivered — contradicting the claim that the
frame is dropped without closing the connection. -/
theorem deserialization_error_closes_counterexample :
    @processNewMessages Nat Nat _ (fun _ => none) (fun _ => none)
        none
        { unauthenticatedConnections := [], incomingConns := [7],
          outgoingConns := [] } 7 [[0], [1]] =
      ({ unauthenticatedConnections := [], incomingConns := [],
         outgoingConns := [] },
       [BusEvent.IncomingConnectionClosed 7]) := by
  rfl

/-- C1 (amended): when a payload on an established connection fails
deserialization, the handler returns `False` and the read loop CLOSES the
connection: it is erased from the registry maps, exactly one
`IncomingConnectionClosed` event (and no `IncomingMessage`) is emitted,
and the remaining frames of the batch are dropped. -/
theorem deserialization_error_closes (Msg Tok : Type) [DecidableEq Tok]
    (decodeUtf8 : List Nat → Option Tok)
    (deserializeMsg : List Nat → Option Msg)
    (authToken : Option Tok) (reg : ConnRegistry) (sock : Nat)
    (payload : List Nat) (rest : List (List Nat))
    (hin : sock ∈ reg.incomingConns)
    (hauth : sock ∉ reg.unauthenticatedConnections)
    (hnodup : reg.incomingConns.Nodup)
    (hfail : deserializeMsg payload = none) :
    processNewMessages decodeUtf8 deserializeMsg authToken reg sock
        (payload :: rest) =
      ({ unauthenticatedConnections :=
           reg.unauthenticatedConnections.erase sock,
         incomingConns := reg.incomingConns.erase sock,
         outgoingConns := reg.outgoingConns },
       [BusEvent.IncomingConnectionClosed sock]) ∧
    sock ∉ reg.incomingConns.erase sock := by
  constructor
  · simp only [processNewMessages, handleIncomingMessage,
      getConnectionIdFromSocket, if_pos hin, if_neg hauth, hfail,
      markSocketClosed]
    simp [hin, hauth]
  · exact hnodup.not_mem_erase

/-- Witness for C1's amended theorem: connection 7, established, batch of
two undeserializable frames. -/
theorem deserialization_error_closes_witness :
    @processNewMessages Nat Nat _ (fun _ => none) (fun _ => none)
        none
        { unauthenticatedConnections := [], incomingConns := [7, 9],
          outgoingConns := [] } 7 [[0], [1]] =
      ({ unauthenticatedConnections := [], incomingConns := [9],
         outgoingConns := [] },
       [BusEvent.IncomingConnectionClosed 7]) ∧
    7 ∉ ([7, 9] : List Nat).erase 7 :=
  deserialization_error_closes Nat Nat (fun _ => none) (fun _ => none) none
    { unauthenticatedConnections := [], incomingConns := [7, 9],
      outgoingConns := [] } 7 [0] [[1]]
    (by decide) (by decide) (by decide) rfl

/-- C4: on an unauthenticated incoming connection, the first decoded
payload drives the auth handshake: if `decode payload` equals the token,
the connection is authenticated and NO event is emitted for that payload;
if it differs, or the payload cannot be decoded, the read loop closes the
connection (erasing it and firing only `IncomingConnectionClosed`); in no
case is an `IncomingMessage` event emitted for that first payload. -/
theorem first_payload_auth_spec (Msg Tok : Type) [DecidableEq Tok]
    (decodeUtf8 : List Nat → Option Tok)
    (deserializeMsg : List Nat → Option Msg)
    (tok : Tok) (reg : ConnRegistry) (sock : Nat)
    (payload : List Nat) (rest : List (List Nat))
    (hin : sock ∈ reg.incomingConns)
    (hauth : sock ∈ reg.unauthenticatedConnections) :
    (decodeUtf8 payload = some tok →
      handleIncomingMessage decodeUtf8 deserializeMsg (some tok) reg payload
          sock =
        (true,
         { reg with unauthenticatedConnections :=
             reg.unauthenticatedConnections.erase sock },
         [])) ∧
    (∀ s, decodeUtf8 payload = some s → s ≠ tok →
      processNewMessages decodeUtf8 deserializeMsg (some tok) reg sock
          (payload :: rest) =
        ({ unauthenticatedConnections :=
             reg.unauthenticatedConnections.erase sock,
           incomingConns := reg.incomingConns.erase sock,
           outgoingConns := reg.outgoingConns },
         [BusEvent.IncomingConnectionClosed sock])) ∧
    (decodeUtf8 payload = none →
      processNewMessages decodeUtf8 deserializeMsg (some tok) reg sock
          (payload :: rest) =
        ({ unauthenticatedConnections :=
             reg.unauthenticatedConnections.erase sock,
           incomingConns := reg.incomingConns.erase sock,
           outgoingConns := reg.outgoingConns },
         [BusEvent.IncomingConnectionClosed sock])) := by
  refine ⟨?_, ?_, ?_⟩
  · intro hdec
    simp only [handleIncomingMessage, getConnectionIdFromSocket, if_pos hin,
      if_pos hauth, hdec]
    simp
  · intro s hdec hne
    simp only [processNewMessages, handleIncomingMessage,
      getConnectionIdFromSocket, if_pos hin, if_pos hauth, hdec,
      markSocketClosed]
    simp [hne, hin]
  · intro hdec
    simp only [processNewMessages, handleIncomingMessage,
      getConnectionIdFromSocket, if_pos hin, if_pos hauth, hdec,
      markSocketClosed]
    simp [hin]

/-- Witness for C4 on connection 3 with token 5, decoding a payload as its
head byte. -/
theorem first_payload_auth_spec_witness :
    ((fun (b : List Nat) => b.head?) [5] = some 5 →
      handleIncomingMessage (fun (b : List Nat) => b.head?)
          (fun (_ : List Nat) => (none : Option Nat)) (some 5)
          { unauthenticatedConnections := [3], incomingConns := [3],
            outgoingConns := [] } [5] 3 =
        (true,
         { unauthenticatedConnections := [], incomingConns := [3],
           outgoingConns := [] },
         [])) ∧
    (∀ s, (fun (b : List Nat) => b.head?) [5] = some s → s ≠ 5 →
      processNewMessages (fun (b : List Nat) => b.head?)
          (fun (_ : List Nat) => (none : Option Nat)) (some 5)
          { unauthenticatedConnections := [3], incomingConns := [3],
            outgoingConns := [] } 3 [[5]] =
        ({ unauthenticatedConnections := [], incomingConns := [],
           outgoingConns := [] },
         [BusEvent.IncomingConnectionClosed 3])) ∧
    ((fun (b : List Nat) => b.head?) [5] = none →
      processNewMessages (fun (b : List Nat) => b.head?)
          (fun (_ : List Nat) => (none : Option Nat)) (some 5)
          { unauthenticatedConnections := [3], incomingConns := [3],
            outgoingConns := [] } 3 [[5]] =
        ({ unauthenticatedConnections := [], incomingConns := [],
           outgoingConns := [] },
         [BusEvent.IncomingConnectionClosed 3])) :=
  first_payload_auth_spec Nat Nat (fun b => b.head?) (fun _ => none) 5
    { unauthenticatedConnections := [3], incomingConns := [3],
      outgoingConns := [] } 3 [5] []
    (by decide) (by decide)

/-! # Auth token ordering on outgoing connections -/

theorem sBFW_sendQueue (s : OutConnState) (m : List Nat) :
    (scheduleBytesForWrite s m).sendQueue = s.sendQueue := by
  rw [scheduleBytesForWrite]
  split_ifs <;> rfl

theorem sBFW_connected (s : OutConnState) (m : List Nat) :
    (scheduleBytesForWrite s m).connected = s.connected := by
  rw [scheduleBytesForWrite]
  split_ifs <;> rfl

theorem sBFW_pendingConnect (s : OutConnState) (m : List Nat) :
    (scheduleBytesForWrite s m).pendingConnect = s.pendingConnect := by
  rw [scheduleBytesForWrite]
  split_ifs <;> rfl

theorem sBFW_connectScheduled (s : OutConnState) (m : List Nat) :
    (scheduleBytesForWrite s m).connectScheduled = s.connectScheduled := by
  rw [scheduleBytesForWrite]
  split_ifs <;> rfl

theorem sBFW_wire_extend (s : OutConnState) (m : List Nat) :
    ∃ t, (scheduleBytesForWrite s m).wire = s.wire ++ t := by
  rw [scheduleBytesForWrite]
  split_ifs
  exacts [⟨[], by simp⟩, ⟨[m], rfl⟩, ⟨[], by simp⟩, ⟨[], by simp⟩]

theorem foldl_sBFW_sendQueue (msgs : List (List Nat)) :
    ∀ s : OutConnState,
      (msgs.foldl scheduleBytesForWrite s).sendQueue = s.sendQueue := by
  induction msgs with
  | nil => intro s; rfl
  | cons m ms ih =>
    intro s
    rw [List.foldl_cons, ih, sBFW_sendQueue]

theorem foldl_sBFW_connected (msgs : List (List Nat)) :
    ∀ s : OutConnState,
      (msgs.foldl scheduleBytesForWrite s).connected = s.connected := by
  induction msgs with
  | nil => intro s; rfl
  | cons m ms ih =>
    intro s
    rw [List.foldl_cons, ih, sBFW_connected]

theorem foldl_sBFW_wire_extend (msgs : List (List Nat)) :
    ∀ s : OutConnState,
      ∃ t, (msgs.foldl scheduleBytesForWrite s).wire = s.wire ++ t := by
  induction msgs with
  | nil => intro s; exact ⟨[], by simp⟩
  | cons m ms ih =>
    intro s
    obtain ⟨t1, h1⟩ := sBFW_wire_extend s m
    obtain ⟨t2, h2⟩ := ih (scheduleBytesForWrite s m)
    exact ⟨t1 ++ t2, by rw [List.foldl_cons, h2, h1, List.append_assoc]⟩

theorem outInv_init (token : List Nat) : OutInv token initialOutConnState :=
  Or.inl ⟨rfl, by simp [initialOutConnState], rfl, rfl, rfl, rfl, rfl⟩

theorem sBFW_pending_eval (s1 : OutConnState) (m : List Nat)
    (hc : s1.connected = false) (hp : s1.pendingConnect = true) :
    scheduleBytesForWrite s1 m =
      (if m = [] then s1
       else { s1 with preconnectBuffer := s1.preconnectBuffer ++ [m] }) := by
  rw [scheduleBytesForWrite]
  by_cases hm : m = []
  · rw [if_pos hm, if_pos hm]
  · rw [if_neg hm, if_neg hm, if_neg (by simp [hc]), if_pos hp]

theorem sBFW_connected_eval (s1 : OutConnState) (m : List Nat)
    (hc : s1.connected = true) :
    scheduleBytesForWrite s1 m =
      (if m = [] then s1 else { s1 with wire := s1.wire ++ [m] }) := by
  rw [scheduleBytesForWrite]
  by_cases hm : m = []
  · rw [if_pos hm, if_pos hm]
  · rw [if_neg hm, if_neg hm, if_pos hc]

theorem sBFW_dead_eval (s1 : OutConnState) (m : List Nat)
    (hc : s1.connected = false) (hp : s1.pendingConnect = false) :
    scheduleBytesForWrite s1 m = s1 := by
  rw [scheduleBytesForWrite]
  by_cases hm : m = []
  · rw [if_pos hm]
  · rw [if_neg hm, if_neg (by simp [hc]), if_neg (by simp [hp])]

theorem outInv_step (token : List Nat) (htok : token ≠ [])
    (s s' : OutConnState) (hs : OutInv token s) (hstep : OutStep token s s') :
    OutInv token s' := by
  cases hstep with
  | sendMessage msg =>
    rcases hs with ⟨hA1, hA2, hA3, hA4, hA5, hA6, hA7⟩ | hB | hC | hD
    · rcases hq : s.sendQueue with _ | ⟨a, q'⟩
      · rw [hq] at hA1
        exact absurd hA1 (by simp)
      · rw [hq] at hA1 hA2
        simp only [List.head?_cons, Option.some.injEq] at hA1
        subst hA1
        refine Or.inl ⟨?_, ?_, hA3, hA4, hA5, hA6, hA7⟩
        · simp [hq]
        · simp only [hq, List.cons_append, List.tail_cons]
          intro x hx
          rcases List.mem_append.mp hx with hm | hm
          · exact hA2 x (by simpa using hm)
          · simp only [List.mem_singleton] at hm
            subst hm
            simp
    · refine Or.inr (Or.inl ⟨?_, hB.2.1, hB.2.2.1, hB.2.2.2.1,
        hB.2.2.2.2.1, hB.2.2.2.2.2⟩)
      intro x hx
      rcases List.mem_append.mp hx with hm | hm
      · exact hB.1 x hm
      · simp only [List.mem_singleton] at hm
        subst hm
        simp
    · refine Or.inr (Or.inr (Or.inl ⟨?_, hC.2.1, hC.2.2⟩))
      intro x hx
      rcases List.mem_append.mp hx with hm | hm
      · exact hC.1 x hm
      · simp only [List.mem_singleton] at hm
        subst hm
        simp
    · refine Or.inr (Or.inr (Or.inr ⟨?_, hD.2.1, hD.2.2.1, hD.2.2.2.1,
        hD.2.2.2.2⟩))
      intro x hx
      rcases List.mem_append.mp hx with hm | hm
      · exact hD.1 x hm
      · simp only [List.mem_singleton] at hm
        subst hm
        simp
  | dequeueTrigger rest h =>
    rcases hs with ⟨hA1, hA2, hA3, hA4, hA5, hA6, hA7⟩ | hB | hC | hD
    · have hsched : scheduleBytesForWrite { s with sendQueue := rest } token =
          { s with sendQueue := rest, preconnectBuffer := [token] } := by
        rw [sBFW_pending_eval _ _ (by simpa using hA6) (by simpa using hA5)]
        rw [if_neg htok]
        simp [hA3]
      refine Or.inr (Or.inl ⟨?_, ?_, ?_, ?_, ?_, ?_⟩)
      · intro x hx
        have hx' : x ∈ rest := by simpa [hsched] using hx
        exact hA2 x (by rw [h]; simpa using hx')
      · simp [hsched]
      · simpa [hsched] using hA4
      · simpa [hsched] using hA5
      · simpa [hsched] using hA6
      · simp [hsched]
    · exact absurd (hB.1 SendItem.TriggerConnect (by rw [h]; simp)) (by simp)
    · exact absurd (hC.1 SendItem.TriggerConnect (by rw [h]; simp)) (by simp)
    · exact absurd (hD.1 SendItem.TriggerConnect (by rw [h]; simp)) (by simp)
  | dequeuePayload msg rest h =>
    rcases hs with ⟨hA1, hA2, hA3, hA4, hA5, hA6, hA7⟩ | hB | hC | hD
    · rw [h] at hA1
      simp at hA1
    · rw [sBFW_pending_eval _ _ (by simpa using hB.2.2.2.2.1)
        (by simpa using hB.2.2.2.1)]
      by_cases hm : msg = []
      · rw [if_pos hm]
        refine Or.inr (Or.inl ⟨?_, by simpa using hB.2.1,
          by simpa using hB.2.2.1, by simpa using hB.2.2.2.1,
          by simpa using hB.2.2.2.2.1, by simpa using hB.2.2.2.2.2⟩)
        intro x hx
        have hx' : x ∈ rest := by simpa using hx
        exact hB.1 x (by rw [h]; exact List.mem_cons_of_mem _ hx')
      · rw [if_neg hm]
        refine Or.inr (Or.inl ⟨?_, ?_, by simpa using hB.2.2.1,
          by simpa using hB.2.2.2.1, by simpa using hB.2.2.2.2.1,
          by simpa using hB.2.2.2.2.2⟩)
        · intro x hx
          have hx' : x ∈ rest := by simpa using hx
          exact hB.1 x (by rw [h]; exact List.mem_cons_of_mem _ hx')
        · rcases hp : s.preconnectBuffer with _ | ⟨a, p'⟩
          · rw [hp] at hB
            exact absurd hB.2.1 (by simp)
          · rw [hp] at hB
            have h5 := hB.2.1
            simp only [List.head?_cons, Option.some.injEq] at h5
            simp [hp, h5]
    · rw [sBFW_connected_eval _ _ (by simpa using hC.2.1)]
      by_cases hm : msg = []
      · rw [if_pos hm]
        refine Or.inr (Or.inr (Or.inl ⟨?_, by simpa using hC.2.1,
          by simpa using hC.2.2⟩))
        intro x hx
        have hx' : x ∈ rest := by simpa using hx
        exact hC.1 x (by rw [h]; exact List.mem_cons_of_mem _ hx')
      · rw [if_neg hm]
        refine Or.inr (Or.inr (Or.inl ⟨?_, by simpa using hC.2.1, ?_⟩))
        · intro x hx
          have hx' : x ∈ rest := by simpa using hx
          exact hC.1 x (by rw [h]; exact List.mem_cons_of_mem _ hx')
        · rcases hwr : s.wire with _ | ⟨w, ws⟩
          · rw [hwr] at hC
            exact absurd hC.2.2 (by simp)
          · rw [hwr] at hC
            have h6 := hC.2.2
            simp only [List.head?_cons] at h6
            simp [hwr, h6]
    · rw [sBFW_dead_eval _ _ (by simpa using hD.2.2.2.1)
        (by simpa using hD.2.2.1)]
      refine Or.inr (Or.inr (Or.inr ⟨?_, by simpa using hD.2.1,
        by simpa using hD.2.2.1, by simpa using hD.2.2.2.1,
        by simpa using hD.2.2.2.2⟩))
      intro x hx
      have hx' : x ∈ rest := by simpa using hx
      exact hD.1 x (by rw [h]; exact List.mem_cons_of_mem _ hx')
  | connectFinish h hc =>
    rcases hs with ⟨hA1, hA2, hA3, hA4, hA5, hA6, hA7⟩ | hB | hC | hD
    · rw [hA7] at h
      exact absurd h (by simp)
    · refine Or.inr (Or.inr (Or.inl ⟨?_, ?_, ?_⟩))
      · intro x hx
        rw [show (connectFlush s).sendQueue =
            (s.preconnectBuffer.foldl scheduleBytesForWrite
              { s with connected := true, preconnectBuffer := [] }).sendQueue
            from rfl] at hx
        rw [foldl_sBFW_sendQueue] at hx
        exact hB.1 x (by simpa using hx)
      · rw [show (connectFlush s).connected =
            (s.preconnectBuffer.foldl scheduleBytesForWrite
              { s with connected := true, preconnectBuffer := [] }).connected
            from rfl]
        rw [foldl_sBFW_connected]
      · obtain ⟨pre', hpre⟩ : ∃ pre', s.preconnectBuffer = token :: pre' := by
          rcases hp : s.preconnectBuffer with _ | ⟨a, p'⟩
          · rw [hp] at hB
            exact absurd hB.2.1 (by simp)
          · rw [hp] at hB
            have h5 := hB.2.1
            simp only [List.head?_cons, Option.some.injEq] at h5
            exact ⟨p', by rw [h5]⟩
        rw [show (connectFlush s).wire =
            (s.preconnectBuffer.foldl scheduleBytesForWrite
              { s with connected := true, preconnectBuffer := [] }).wire
            from rfl]
        rw [hpre, List.foldl_cons]
        rw [sBFW_connected_eval _ _ rfl, if_neg htok]
        obtain ⟨t, ht⟩ := foldl_sBFW_wire_extend pre'
          ({ { s with connected := true, preconnectBuffer := [] } with wire :=
              ({ s with connected := true, preconnectBuffer := [] } :
                OutConnState).wire ++ [token] })
        rw [ht]
        have hw : s.wire = [] := hB.2.2.1
        simp [hw]
    · rw [hC.2.1] at hc
      exact absurd hc (by simp)
    · rw [hD.2.2.2.2] at h
      exact absurd h (by simp)
  | connectFail h hc =>
    rcases hs with ⟨hA1, hA2, hA3, hA4, hA5, hA6, hA7⟩ | hB | hC | hD
    · rw [hA7] at h
      exact absurd h (by simp)
    · exact Or.inr (Or.inr (Or.inr ⟨hB.1, hB.2.2.1, rfl, hB.2.2.2.2.1, rfl⟩))
    · rw [hC.2.1] at hc
      exact absurd hc (by simp)
    · rw [hD.2.2.2.2] at h
      exact absurd h (by simp)

theorem outInv_reachable (token : List Nat) (htok : token ≠ [])
    (s : OutConnState) (hreach : ReachableOut token s) : OutInv token s := by
  induction hreach with
  | init => exact outInv_init token
  | step hr hstep ih => exact outInv_step token htok _ _ ih hstep

/-- C3 (amended): for an outgoing connection of a bus whose auth token has a
non-empty UTF-8 encoding, in every reachable state the first payload ever
placed into the connection's outgoing byte flow is the token: the send
queue starts with `TriggerConnect`, whose dequeue pre-stages the token into
the preconnect buffer before any user payload, and the buffer is flushed
FIFO on connect success. -/
theorem auth_token_first_on_wire (token : List Nat) (s : OutConnState)
    (htok : token ≠ []) (hreach : ReachableOut token s)
    (hw : s.wire ≠ []) : s.wire.head? = some token := by
  rcases outInv_reachable token htok s hreach with hA | hB | hC | hD
  · exact absurd hA.2.2.2.1 hw
  · exact absurd hB.2.2.1 hw
  · exact hC.2.2
  · exact absurd hD.2.1 hw

/-- Witness for C3's amended theorem: token `[1]`, the trace
connect → dequeue TriggerConnect → connect success; the wire then holds
exactly the token. -/
theorem auth_token_first_on_wire_witness :
    ({ sendQueue := [], preconnectBuffer := [], wire := [[1]],
       pendingConnect := false, connected := true,
       connectScheduled := false } : OutConnState).wire.head? = some [1] :=
  auth_token_first_on_wire [1] _ (by decide)
    (ReachableOut.step
      (ReachableOut.step ReachableOut.init
        (OutStep.dequeueTrigger initialOutConnState [] rfl))
      (OutStep.connectFinish _ rfl rfl))
    (by decide)

/-- C3 counterexample: with an EMPTY auth token (`authToken = ""`, whose
UTF-8 encoding is `b""`), `_scheduleBytesForWrite`'s empty-payload guard
drops the token, so a reachable state exists whose wire begins with a user
payload and never carried the token first. -/
theorem auth_token_first_on_wire_counterexample :
    ReachableOut []
      ({ sendQueue := [], preconnectBuffer := [], wire := [[5]],
         pendingConnect := false, connected := true,
         connectScheduled := false } : OutConnState) ∧
    ({ sendQueue := [], preconnectBuffer := [], wire := [[5]],
       pendingConnect := false, connected := true,
       connectScheduled := false } : OutConnState).wire ≠ [] ∧
    ({ sendQueue := [], preconnectBuffer := [], wire := [[5]],
       pendingConnect := false, connected := true,
       connectScheduled := false } : OutConnState).wire.head? ≠
      some [] := by
  refine ⟨?_, by decide, by decide⟩
  exact ReachableOut.step
    (ReachableOut.step
      (ReachableOut.step
        (ReachableOut.step ReachableOut.init
          (OutStep.dequeueTrigger initialOutConnState [] rfl))
        (OutStep.sendMessage _ [5]))
      (OutStep.connectFinish _ rfl rfl))
    (OutStep.dequeuePayload _ [5] [] rfl)

/-! # Scheduled callbacks: deadline order, tie order, deduplication -/

theorem mem_sortedKeyInsert (l : List (Nat × Nat)) (v x : Nat × Nat) :
    x ∈ sortedKeyInsert l v ↔ x = v ∨ x ∈ l := by
  induction l with
  | nil => simp [sortedKeyInsert]
  | cons y ys ih =>
    rw [sortedKeyInsert]
    split_ifs with h
    · simp [or_comm, or_assoc, or_left_comm]
    · simp only [List.mem_cons, ih]
      tauto

theorem sortedByKey_insert (l : List (Nat × Nat)) (v : Nat × Nat)
    (hsort : sortedByKey l) : sortedByKey (sortedKeyInsert l v) := by
  induction l with
  | nil => simp [sortedKeyInsert, sortedByKey]
  | cons y ys ih =>
    rw [sortedKeyInsert]
    split_ifs with h
    · exact List.Chain'.cons (le_of_lt h) hsort
    · rw [sortedByKey] at hsort ⊢
      rcases ys with _ | ⟨z, zs⟩
      · simp [sortedKeyInsert]
        omega
      · rw [sortedKeyInsert]
        rw [List.chain'_cons] at hsort
        split_ifs with h2
        · exact List.Chain'.cons (by omega)
            (List.Chain'.cons (le_of_lt h2) hsort.2)
        · have htail : sortedByKey (sortedKeyInsert (z :: zs) v) :=
            ih hsort.2
          rw [sortedKeyInsert, if_neg h2] at htail
          exact List.Chain'.cons hsort.1 htail

theorem pairwise_key_le_of_sorted (l : List (Nat × Nat))
    (hsort : sortedByKey l) :
    List.Pairwise (fun a b : Nat × Nat => a.1 ≤ b.1) l := by
  haveI : IsTrans (Nat × Nat) fun a b => a.1 ≤ b.1 :=
    ⟨fun _ _ _ hab hbc => le_trans hab hbc⟩
  rw [sortedByKey, List.chain'_iff_pairwise] at hsort
  exact hsort

theorem sublist_sortedKeyInsert_of_mem (l : List (Nat × Nat))
    (t c1 c2 : Nat) (hsort : sortedByKey l) (hmem : (t, c1) ∈ l) :
    List.Sublist [(t, c1), (t, c2)] (sortedKeyInsert l (t, c2)) := by
  induction l with
  | nil => simp at hmem
  | cons y ys ih =>
    have hpw := pairwise_key_le_of_sorted _ hsort
    rw [sortedKeyInsert]
    rcases List.mem_cons.mp hmem with he | hm
    · subst he
      rw [if_neg (by simp)]
      refine List.Sublist.cons₂ _ ?_
      rw [List.singleton_sublist, mem_sortedKeyInsert]
      left
      rfl
    · have hle : y.1 ≤ t := by
        have := (List.pairwise_cons.mp hpw).1 (t, c1) hm
        simpa using this
      rw [if_neg (by omega)]
      refine List.Sublist.cons _ ?_
      exact ih (by rw [sortedByKey] at hsort ⊢; exact hsort.tail) hm

theorem consumeDue_all (now : Nat) (l : List (Nat × Nat))
    (hdue : ∀ x ∈ l, x.1 ≤ now) :
    consumeDue now l = ([], l.map Prod.snd) := by
  induction l with
  | nil => rfl
  | cons y ys ih =>
    rcases y with ⟨ts, cb⟩
    rw [consumeDue]
    rw [if_pos (by simpa using hdue (ts, cb) (by simp))]
    rw [ih (fun x hx => hdue x (by simp [hx]))]
    simp

/-- C6 (amended): two DISTINCT `(timestamp, callback)` pairs scheduled with
equal deadlines are both kept, ordered by insertion among equal deadlines;
the pending set stays sorted by nondecreasing deadline; once both are due,
the pop loop delivers them to the event queue in insertion order.  (An
exactly duplicated pair, by contrast, is deduplicated by the SortedSet —
see the counterexample.) -/
theorem scheduled_ties_fire_in_insertion_order (l : List (Nat × Nat))
    (t c1 c2 now : Nat) (hsort : sortedByKey l) (hne : c1 ≠ c2)
    (h1 : (t, c1) ∉ l) (h2 : (t, c2) ∉ l)
    (hdue : ∀ x ∈ l, x.1 ≤ now) (ht : t ≤ now) :
    sortedByKey (sortedSetAdd (sortedSetAdd l (t, c1)) (t, c2)) ∧
    List.Sublist [(t, c1), (t, c2)]
      (sortedSetAdd (sortedSetAdd l (t, c1)) (t, c2)) ∧
    List.Sublist [c1, c2]
      (consumeDue now (sortedSetAdd (sortedSetAdd l (t, c1)) (t, c2))).2 := by
  have hadd1 : sortedSetAdd l (t, c1) = sortedKeyInsert l (t, c1) := by
    rw [sortedSetAdd, if_neg h1]
  have hsort1 : sortedByKey (sortedKeyInsert l (t, c1)) :=
    sortedByKey_insert l (t, c1) hsort
  have hmem1 : (t, c1) ∈ sortedKeyInsert l (t, c1) := by
    rw [mem_sortedKeyInsert]
    left
    rfl
  have hnot2 : (t, c2) ∉ sortedKeyInsert l (t, c1) := by
    rw [mem_sortedKeyInsert]
    rintro (he | hm)
    · have hcc : c2 = c1 := by simpa using he
      exact hne hcc.symm
    · exact h2 hm
  have hadd2 : sortedSetAdd (sortedKeyInsert l (t, c1)) (t, c2) =
      sortedKeyInsert (sortedKeyInsert l (t, c1)) (t, c2) := by
    rw [sortedSetAdd, if_neg hnot2]
  rw [hadd1, hadd2]
  have hsort2 : sortedByKey (sortedKeyInsert (sortedKeyInsert l (t, c1)) (t, c2)) :=
    sortedByKey_insert _ _ hsort1
  have hsub : List.Sublist [(t, c1), (t, c2)]
      (sortedKeyInsert (sortedKeyInsert l (t, c1)) (t, c2)) :=
    sublist_sortedKeyInsert_of_mem _ t c1 c2 hsort1 hmem1
  refine ⟨hsort2, hsub, ?_⟩
  have hdue2 : ∀ x ∈ sortedKeyInsert (sortedKeyInsert l (t, c1)) (t, c2),
      x.1 ≤ now := by
    intro x hx
    rw [mem_sortedKeyInsert] at hx
    rcases hx with he | hx
    · subst he
      exact ht
    · rw [mem_sortedKeyInsert] at hx
      rcases hx with he | hx
      · subst he
        exact ht
      · exact hdue x hx
  rw [consumeDue_all now _ hdue2]
  have := hsub.map Prod.snd
  simpa using this

/-- Witness for C6's amended theorem: pending `[(1, 0)]`, two distinct
callbacks 7 and 8 at deadline 5, drained at time 9. -/
theorem scheduled_ties_fire_in_insertion_order_witness :
    sortedByKey (sortedSetAdd (sortedSetAdd [(1, 0)] (5, 7)) (5, 8)) ∧
    List.Sublist [(5, 7), (5, 8)]
      (sortedSetAdd (sortedSetAdd [(1, 0)] (5, 7)) (5, 8)) ∧
    List.Sublist [7, 8]
      (consumeDue 9 (sortedSetAdd (sortedSetAdd [(1, 0)] (5, 7)) (5, 8))).2 :=
  scheduled_ties_fire_in_insertion_order [(1, 0)] 5 7 8 9
    (by simp [sortedByKey]) (by decide) (by decide) (by decide)
    (by decide) (by decide)

/-- C6 counterexample: scheduling the SAME callback 7 twice at the same
`atTimestamp` 5 leaves only one `(5, 7)` pair in `_pendingTimedCallbacks`
(SortedSet deduplication), so draining delivers callback 7 once, not
twice — refuting "both are delivered" for identical pairs. -/
theorem scheduled_duplicate_pair_deduplicated :
    scheduleCallback
        { pendingTimedCallbacks := [], eventQueue := [], generalWakes := 0 }
        (some 7) (some 5) none 0 =
      .ok { pendingTimedCallbacks := [(5, 7)], eventQueue := [],
            generalWakes := 1 } ∧
    scheduleCallback
        { pendingTimedCallbacks := [(5, 7)], eventQueue := [],
          generalWakes := 1 }
        (some 7) (some 5) none 0 =
      .ok { pendingTimedCallbacks := [(5, 7)], eventQueue := [],
            generalWakes := 2 } ∧
    consumeDue 9 [(5, 7)] = ([], [7]) :=
  ⟨rfl, rfl, rfl⟩

/-! # sendMessage, connection ids, scheduleCallback(None) -/

/-- C7: on a started bus, `sendMessage` first serializes the message (a
codec failure raises before any liveness check, even for dead ids), then
returns `false` — leaving all state untouched — iff the id is in neither
endpoint map; otherwise it appends the serialized bytes to the send queue,
writes one wake byte, and returns `true`. -/
theorem sendMessage_false_iff_dead (Msg : Type) (st : SendState)
    (connId : Nat) (serializer : Msg → Option (List Nat)) (message : Msg)
    (serializedMessage : List Nat) (hstart : st.started = true)
    (hser : serializer message = some serializedMessage) :
    (sendMessage st connId serializer message = .ok (false, st) ↔
      (connId ∉ st.connIdToIncomingEndpoint ∧
       connId ∉ st.connIdToOutgoingEndpoint)) ∧
    ((connId ∈ st.connIdToIncomingEndpoint ∨
      connId ∈ st.connIdToOutgoingEndpoint) →
      sendMessage st connId serializer message =
        .ok (true,
          { st with
            messagesToSendQueue :=
              st.messagesToSendQueue ++ [(connId, serializedMessage)],
            messageToSendWakes := st.messageToSendWakes + 1 })) ∧
    (∀ m2 : Msg, serializer m2 = none →
      sendMessage st connId serializer m2 = .error .serializationError) := by
  have hnotfalse : ¬ (st.started = false) := by simp [hstart]
  have hsend : sendMessage st connId serializer message =
      (if isDefinitelyDead st connId = true then .ok (false, st)
       else .ok (true,
        { st with
          messagesToSendQueue :=
            st.messagesToSendQueue ++ [(connId, serializedMessage)],
          messageToSendWakes := st.messageToSendWakes + 1 })) := by
    rw [sendMessage, if_neg hnotfalse, hser]
  have hdead_iff : isDefinitelyDead st connId = true ↔
      (connId ∉ st.connIdToOutgoingEndpoint ∧
       connId ∉ st.connIdToIncomingEndpoint) := by
    rw [isDefinitelyDead, decide_eq_true_eq]
  refine ⟨?_, ?_, ?_⟩
  · constructor
    · intro hres
      by_cases hdead : isDefinitelyDead st connId = true
      · have h3 := hdead_iff.mp hdead
        exact ⟨h3.2, h3.1⟩
      · rw [hsend, if_neg hdead] at hres
        simp at hres
    · intro hdd
      rw [hsend, if_pos (hdead_iff.mpr ⟨hdd.2, hdd.1⟩)]
  · intro halive
    have hnd : ¬ (isDefinitelyDead st connId = true) := by
      rw [hdead_iff]
      tauto
    rw [hsend, if_neg hnd]
  · intro m2 hm2
    rw [sendMessage, if_neg hnotfalse, hm2]

/-- Witness for C7: a started bus with incoming id 3, sending to live id 3
and checking the dead-id equivalence. -/
theorem sendMessage_false_iff_dead_witness :
    (sendMessage
        { started := true, connIdToIncomingEndpoint := [3],
          connIdToOutgoingEndpoint := [], messagesToSendQueue := [],
          messageToSendWakes := 0 } 3 (fun n : Nat => some [n]) 9 =
      .ok (false,
        { started := true, connIdToIncomingEndpoint := [3],
          connIdToOutgoingEndpoint := [], messagesToSendQueue := [],
          messageToSendWakes := 0 }) ↔
      ((3 : Nat) ∉ ([3] : List Nat) ∧ (3 : Nat) ∉ ([] : List Nat))) ∧
    (((3 : Nat) ∈ ([3] : List Nat) ∨ (3 : Nat) ∈ ([] : List Nat)) →
      sendMessage
          { started := true, connIdToIncomingEndpoint := [3],
            connIdToOutgoingEndpoint := [], messagesToSendQueue := [],
            messageToSendWakes := 0 } 3 (fun n : Nat => some [n]) 9 =
        .ok (true,
          { started := true, connIdToIncomingEndpoint := [3],
            connIdToOutgoingEndpoint := [],
            messagesToSendQueue := [(3, [9])], messageToSendWakes := 1 })) ∧
    (∀ m2 : Nat, (fun n : Nat => some [n]) m2 = none →
      sendMessage
          { started := true, connIdToIncomingEndpoint := [3],
            connIdToOutgoingEndpoint := [], messagesToSendQueue := [],
            messageToSendWakes := 0 } 3 (fun n : Nat => some [n]) m2 =
        .error .serializationError) :=
  sendMessage_false_iff_dead Nat
    { started := true, connIdToIncomingEndpoint := [3],
      connIdToOutgoingEndpoint := [], messagesToSendQueue := [],
      messageToSendWakes := 0 } 3 (fun n => some [n]) 9 [9] rfl rfl

theorem mem_allocatedIds_gt (k : Nat) :
    ∀ (c y : Nat), y ∈ allocatedIds c k → c < y := by
  induction k with
  | zero => intro c y hy; simp [allocatedIds] at hy
  | succ k ih =>
    intro c y hy
    rw [allocatedIds] at hy
    rcases List.mem_cons.mp hy with he | hm
    · simp [newConnectionId] at he
      omega
    · have := ih (newConnectionId c).2 y hm
      simp [newConnectionId] at this
      omega

/-- C8: the ids produced by successive `_newConnectionId` calls are
pairwise strictly increasing (hence unique and never reused) over the life
of the bus instance. -/
theorem connectionIds_strictly_increasing (c k : Nat) :
    List.Pairwise (· < ·) (allocatedIds c k) ∧
    (allocatedIds c k).Nodup := by
  have hpw : List.Pairwise (· < ·) (allocatedIds c k) := by
    induction k generalizing c with
    | zero => simp [allocatedIds]
    | succ k ih =>
      rw [allocatedIds]
      refine List.Pairwise.cons ?_ (ih _)
      intro y hy
      have := mem_allocatedIds_gt k (newConnectionId c).2 y hy
      simp [newConnectionId] at this ⊢
      omega
  exact ⟨hpw, hpw.imp ne_of_lt⟩

/-- C9: `scheduleCallback(None)` is a no-op — the warning is logged and the
state (pending callback set, queues, wake pipes) is untouched — and the
`None` filter matters because a `None` on the event queue terminates the
event thread immediately, processing nothing further. -/
theorem scheduleCallback_none_noop :
    (∀ (st : SchedState) (a d : Option Nat) (now : Nat),
      scheduleCallback st none a d now = .ok st) ∧
    (∀ rest : List (Option Nat), eventThreadProcessed (none :: rest) = []) :=
  ⟨fun _ _ _ _ => rfl, fun _ => rfl⟩
